import Mathlib

/-!
Verification of the evaluation engine of `cinemetric_streamlit`
(`src/groq_integration.py`, function `evaluate_conversation`).

Strings are modelled as `List Char` (written `Str`).  Python's `str.replace`
is modelled by `pyReplace` (left-to-right, non-overlapping, replacement text
not rescanned), implemented with an explicit fuel argument so that it is
structurally recursive and kernel-evaluable; `pyReplaceF_fuel_irrel` shows
the fuel is irrelevant once it dominates the length of the input.
-/

namespace CineMetric

abbrev Str := List Char

/-- The placeholder token `\x7b\x7bMETRIC\x7d\x7d` from the prompt template. -/
def mtok : Str := ['{', '{', 'M', 'E', 'T', 'R', 'I', 'C', '}', '}']

/-- The placeholder token `\x7b\x7bCONVERSATION\x7d\x7d` from the prompt template. -/
def ctok : Str := ['{', '{', 'C', 'O', 'N', 'V', 'E', 'R', 'S', 'A', 'T', 'I', 'O', 'N', '}', '}']

/-- The label prepended to the persona context (source line 45). -/
def personaLabel : Str := ("\n\nPersona Profile: ").data

/-- The label prepended to the previous-turn context (source line 48). -/
def previousLabel : Str := ("\n\nPrevious Context: ").data

/-- Fuelled worker for `pyReplace`.  Mirrors CPython `str.replace`:
scan left to right; at each position, if the pattern starts here, emit the
replacement and resume after the pattern; otherwise emit the character. -/
def pyReplaceF (p r : Str) : Nat → Str → Str
  | _, [] => []
  | 0, s => s
  | fuel + 1, c :: t =>
    if p.isPrefixOf (c :: t) then r ++ pyReplaceF p r fuel (t.drop (p.length - 1))
    else c :: pyReplaceF p r fuel t

/-- Model of Python `s.replace(p, r)` for a non-empty pattern `p`. -/
def pyReplace (p r s : Str) : Str := pyReplaceF p r s.length s

/-- Python truthiness of an optional string argument (`if persona_context:`
is taken when the argument is neither `None` nor the empty string). -/
def truthy : Option Str → Bool
  | none => false
  | some s => !s.isEmpty

/-- Lines 42-48 of the source: start from the template and append the two
labelled context blocks when the corresponding argument is truthy. -/
def buildEnhanced (tmpl : Str) (pc ptc : Option Str) : Str :=
  let e1 := if truthy pc then tmpl ++ personaLabel ++ pc.getD [] else tmpl
  if truthy ptc then e1 ++ previousLabel ++ ptc.getD [] else e1

/-- Line 51 of the source:
`enhanced.replace("\x7b\x7bMETRIC\x7d\x7d", metric).replace("\x7b\x7bCONVERSATION\x7d\x7d", conversation)`. -/
def fillTokens (s metric conv : Str) : Str :=
  pyReplace ctok conv (pyReplace mtok metric s)

/-- Lines 42-51 of the source: the user-message prompt actually submitted. -/
def fillPrompt (tmpl metric conv : Str) (pc ptc : Option Str) : Str :=
  fillTokens (buildEnhanced tmpl pc ptc) metric conv

/-- Character-level side condition used throughout: no opening or closing brace. -/
def braceFree (s : Str) : Bool := s.all fun c => !(c == '{' || c == '}')

/-- Written from the claim wording of C1, for comparison with the code: append
the persona block whenever the argument is present (`some`), then the
previous-turn block whenever present, then substitute both placeholders. -/
def specEnhancedC1 (tmpl : Str) (pc ptc : Option Str) : Str :=
  let e1 := match pc with
    | some s => tmpl ++ personaLabel ++ s
    | none => tmpl
  match ptc with
  | some s => e1 ++ previousLabel ++ s
  | none => e1

/-- The filled prompt as described by claim C1 verbatim. -/
def specFillC1 (tmpl metric conv : Str) (pc ptc : Option Str) : Str :=
  pyReplace ctok conv (pyReplace mtok metric (specEnhancedC1 tmpl pc ptc))

/-- The enhanced prompt as described by the amended claim C1: a context block
is appended only when the argument is present and non-empty (Python's
truthiness test on a string skips the empty string). -/
def specEnhancedC1A (tmpl : Str) (pc ptc : Option Str) : Str :=
  let e1 := match pc with
    | some s => if s = [] then tmpl else tmpl ++ personaLabel ++ s
    | none => tmpl
  match ptc with
  | some s => if s = [] then e1 else e1 ++ previousLabel ++ s
  | none => e1

/-- The filled prompt as described by the amended claim C1. -/
def specFillC1A (tmpl metric conv : Str) (pc ptc : Option Str) : Str :=
  pyReplace ctok conv (pyReplace mtok metric (specEnhancedC1A tmpl pc ptc))

/-- Fuelled scanner deciding that a string decomposes left-to-right into
placeholder tokens and non-brace literal characters. -/
def cleanF : Nat → Str → Bool
  | _, [] => true
  | 0, _ => false
  | fuel + 1, c :: t =>
    if mtok.isPrefixOf (c :: t) then cleanF fuel (t.drop (mtok.length - 1))
    else if ctok.isPrefixOf (c :: t) then cleanF fuel (t.drop (ctok.length - 1))
    else !(c == '{' || c == '}') && cleanF fuel t

/-- A clean template: every brace in it belongs to a placeholder occurrence
found by the left-to-right scan. -/
def cleanTmpl (s : Str) : Bool := cleanF s.length s

/-! ### Model of the response-handling pipeline (source lines 83-113) -/

/-- Index of the first occurrence of a character. -/
def firstIdx (c : Char) : Str → Option Nat
  | [] => none
  | x :: t => if x = c then some 0 else (firstIdx c t).map (· + 1)

/-- Index of the last occurrence of a character. -/
def lastIdx (c : Char) : Str → Option Nat
  | [] => none
  | x :: t =>
    match lastIdx c t with
    | some j => some (j + 1)
    | none => if x = c then some 0 else none

/-- Model of `re.search` for the pattern used on line 92 (an opening brace,
a greedy run of arbitrary characters, a closing brace): candidate start
positions are tried left to right; at a viable start the greedy inner run
backtracks to the last closing brace strictly after the start.  Returns the
span `(start, end)` of the match, inclusive on both sides. -/
def reSearchBrace : Str → Option (Nat × Nat)
  | [] => none
  | x :: t =>
    if x = '{' then
      match lastIdx '}' t with
      | some j => some (0, j + 1)
      | none => (reSearchBrace t).map (fun p => (p.1 + 1, p.2 + 1))
    else (reSearchBrace t).map (fun p => (p.1 + 1, p.2 + 1))

/-- Lines 92-94: the candidate JSON text — `json_match.group(0)` — or `none`
when the regex does not match. -/
def extractJson (text : Str) : Option Str :=
  (reSearchBrace text).map (fun p => (text.drop p.1).take (p.2 - p.1 + 1))

/-- Written from the spec wording for comparison: the substring extending
from the first opening brace in the text to the last closing brace in the
text, when the first opening brace comes before the last closing brace. -/
def specExtract (text : Str) : Option Str :=
  match firstIdx '{' text, lastIdx '}' text with
  | some i, some j => if i < j then some ((text.drop i).take (j - i + 1)) else none
  | _, _ => none

/-- Model of Python `str.strip()`: remove leading and trailing whitespace. -/
def pyStrip (s : Str) : Str :=
  ((s.dropWhile Char.isWhitespace).reverse.dropWhile Char.isWhitespace).reverse

/-- JSON values as produced by `json.loads`. -/
inductive JSON where
  | jnull : JSON
  | jbool : Bool → JSON
  | jnum : Rat → JSON
  | jstr : String → JSON
  | jarr : List JSON → JSON
  | jobj : List (String × JSON) → JSON

/-- A parsed JSON object: the Python dict `json.loads` returns for an
object-shaped text. -/
abbrev Jobj := List (String × JSON)

/-- Lookup in the dict built by `json.loads`: later duplicate keys overwrite
earlier ones, so the last binding wins. -/
def jLookup (kvs : Jobj) (k : String) : Option JSON :=
  (kvs.reverse.find? (fun kv => kv.1 == k)).map Prod.snd

/-- How Python `int(x)` can fail: `ValueError` (caught by the source's
`except` clause) or `TypeError` (not caught). -/
inductive PyIntErr where
  | valueErr : String → PyIntErr
  | typeErr : PyIntErr
deriving DecidableEq

/-- Digit run with single underscores allowed between digits (Python int
literal syntax accepted by `int(str)`). -/
def digitsCore : Nat → Str → Option Nat
  | acc, [] => some acc
  | acc, '_' :: c :: t =>
    if c.isDigit then digitsCore (acc * 10 + (c.toNat - 48)) t else none
  | acc, c :: t =>
    if c.isDigit then digitsCore (acc * 10 + (c.toNat - 48)) t else none

/-- A non-empty digit run, possibly with separating underscores. -/
def parseDigits : Str → Option Nat
  | [] => none
  | c :: t => if c.isDigit then digitsCore (c.toNat - 48) t else none

/-- Model of Python `int(s)` on a string: strip whitespace, optional sign,
then a decimal digit run (underscore separators allowed). -/
def pyIntOfStr (s : String) : Option Int :=
  match pyStrip s.data with
  | '+' :: r => (parseDigits r).map (fun n => (n : Int))
  | '-' :: r => (parseDigits r).map (fun n => -(n : Int))
  | r => (parseDigits r).map (fun n => (n : Int))

/-- Model of Python `int(x)` on a JSON value.  On a number it truncates
toward zero (`Int.div` is T-division, like CPython `int(float)`); a bool is
an int subclass (`int(True) = 1`); a non-numeric string raises `ValueError`;
`None`, lists and dicts raise `TypeError`. -/
def pyInt : JSON → Except PyIntErr Int
  | .jnum q => .ok (Int.tdiv q.num (q.den : Int))
  | .jbool b => .ok (if b then 1 else 0)
  | .jstr s =>
    match pyIntOfStr s with
    | some n => .ok n
    | none => .error (.valueErr s)
  | .jnull => .error .typeErr
  | .jarr _ => .error .typeErr
  | .jobj _ => .error .typeErr

/-- The exceptions raised inside the `try` block that the source's
`except (json.JSONDecodeError, KeyError, ValueError)` clause catches and
re-raises as `Exception("Failed to parse Groq API response: ...")`. -/
inductive CaughtErr where
  | envelope : String → CaughtErr
  | noJson : CaughtErr
  | jsonDecode : String → CaughtErr
  | missingFields : CaughtErr
  | intLiteral : String → CaughtErr
deriving DecidableEq

/-- The observable outcomes of `evaluate_conversation`. -/
inductive EvalError where
  | configError : EvalError
  | requestFailed : String → EvalError
  | parseFailed : CaughtErr → EvalError
  | uncaughtTypeError : EvalError
deriving DecidableEq

/-- The dict returned on success (source lines 105-108). -/
structure EvalResult where
  score : Int
  explanation : JSON

/-- Source lines 99-108: field validation, score coercion and clamping, and
result construction.  The extracted text starts with an opening brace and
ends with a closing brace, so a successful `json.loads` yields a dict; this
function processes that dict. -/
def postParse (result : Jobj) : Except EvalError EvalResult :=
  if (jLookup result ("score")).isNone || (jLookup result ("explanation")).isNone then
    .error (.parseFailed .missingFields)
  else
    match pyInt ((jLookup result ("score")).getD .jnull) with
    | .ok s => .ok ⟨max 0 (min 10 s), (jLookup result ("explanation")).getD .jnull⟩
    | .error (.valueErr lit) => .error (.parseFailed (.intLiteral lit))
    | .error .typeErr => .error .uncaughtTypeError

/-- Source lines 89-108 from the reply text onward: strip, regex-extract the
candidate JSON text, parse it (`loads` models `json.loads`), and validate.
`loads` is a parameter because `json.loads` is Python library code, not part
of this repository. -/
def processContent (text : Str) (loads : Str → Except String Jobj) :
    Except EvalError EvalResult :=
  match extractJson (pyStrip text) with
  | none => .error (.parseFailed .noJson)
  | some cand =>
    match loads cand with
    | .error m => .error (.parseFailed (.jsonDecode m))
    | .ok kvs => postParse kvs

/-- What the single `requests.post` call can deliver: a transport-level
failure (`RequestException`, including timeouts and non-2xx responses via
`raise_for_status`), a malformed response envelope (`response.json()` or the
`choices/message/content` access fails), or the reply text itself. -/
inductive NetReply where
  | requestError : String → NetReply
  | badEnvelope : String → NetReply
  | content : Str → NetReply

/-- The whole of `evaluate_conversation` (source lines 18-113), with the
transport and `json.loads` as oracles.  The second component records the
user messages of the outbound HTTP requests actually made (at most one:
there are no retries); the credential check on lines 38-39 happens before
the request is built, so a missing or empty credential yields the
configuration error with no outbound request. -/
def evaluate_conversation (apiKey : Option Str) (tmpl metric conv : Str)
    (pc ptc : Option Str) (reply : NetReply)
    (loads : Str → Except String Jobj) : Except EvalError EvalResult × List Str :=
  if truthy apiKey = false then (.error .configError, [])
  else
    let filled := fillPrompt tmpl metric conv pc ptc
    match reply with
    | .requestError m => (.error (.requestFailed m), [filled])
    | .badEnvelope m => (.error (.parseFailed (.envelope m)), [filled])
    | .content text => (processContent text loads, [filled])

/-! ### Basic facts about `pyReplace` -/

theorem pyReplaceF_fuel_irrel (p r : Str) :
    ∀ f₁ f₂ s, s.length ≤ f₁ → s.length ≤ f₂ →
      pyReplaceF p r f₁ s = pyReplaceF p r f₂ s := by
  intro f₁
  induction f₁ using Nat.strong_induction_on with
  | _ f₁ ih =>
    intro f₂ s h₁ h₂
    match s with
    | [] => cases f₁ <;> cases f₂ <;> rfl
    | c :: t =>
      match f₁, f₂ with
      | g₁ + 1, g₂ + 1 =>
        simp only [pyReplaceF]
        by_cases hp : p.isPrefixOf (c :: t) = true
        · rw [if_pos hp, if_pos hp]
          have hd : (t.drop (p.length - 1)).length ≤ t.length := by
            simp [List.length_drop]
          have hg₁ : (t.drop (p.length - 1)).length ≤ g₁ := by
            simp only [List.length_cons] at h₁; omega
          have hg₂ : (t.drop (p.length - 1)).length ≤ g₂ := by
            simp only [List.length_cons] at h₂; omega
          rw [ih g₁ (Nat.lt_succ_self _) g₂ _ hg₁ hg₂]
        · rw [if_neg hp, if_neg hp]
          have hg₁ : t.length ≤ g₁ := by simp only [List.length_cons] at h₁; omega
          have hg₂ : t.length ≤ g₂ := by simp only [List.length_cons] at h₂; omega
          rw [ih g₁ (Nat.lt_succ_self _) g₂ _ hg₁ hg₂]

theorem pyReplace_nil (p r : Str) : pyReplace p r [] = [] := rfl

theorem pyReplace_cons_pos (p r : Str) (c : Char) (t : Str)
    (h : p.isPrefixOf (c :: t) = true) :
    pyReplace p r (c :: t) = r ++ pyReplace p r (t.drop (p.length - 1)) := by
  unfold pyReplace
  simp only [List.length_cons, pyReplaceF]
  rw [if_pos h]
  congr 1
  refine pyReplaceF_fuel_irrel p r _ _ _ ?_ le_rfl
  simp [List.length_drop]

theorem pyReplace_cons_neg (p r : Str) (c : Char) (t : Str)
    (h : p.isPrefixOf (c :: t) = false) :
    pyReplace p r (c :: t) = c :: pyReplace p r t := by
  unfold pyReplace
  simp only [List.length_cons, pyReplaceF]
  rw [if_neg (by simp [h])]

theorem pyReplace_head (p r s : Str) (hp : p ≠ []) :
    pyReplace p r (p ++ s) = r ++ pyReplace p r s := by
  match p, hp with
  | c :: p', _ =>
    rw [List.cons_append, pyReplace_cons_pos _ _ _ _
      (List.isPrefixOf_iff_prefix.mpr (by exact ⟨s, by simp⟩))]
    simp [List.drop_left']

theorem pyReplace_self (p r : Str) (hp : p ≠ []) : pyReplace p r p = r := by
  have := pyReplace_head p r [] hp
  simpa [pyReplace_nil] using this

/-- If the pattern does not occur in `s`, `str.replace` leaves `s` unchanged. -/
theorem pyReplace_no_occ (p r : Str) : ∀ s : Str, ¬ p <:+: s → pyReplace p r s = s := by
  intro s
  induction s with
  | nil => intro _; rfl
  | cons c t ih =>
    intro h
    have hpre : p.isPrefixOf (c :: t) = false := by
      by_contra hb
      have : p.isPrefixOf (c :: t) = true := by
        cases hx : p.isPrefixOf (c :: t) <;> simp_all
      exact h (List.infix_cons_iff.mpr (Or.inl (List.isPrefixOf_iff_prefix.mp this)))
    rw [pyReplace_cons_neg _ _ _ _ hpre,
      ih (fun hinf => h (List.infix_cons_iff.mpr (Or.inr hinf)))]

/-- A replacement pass whose pattern starts with an opening brace walks through a
brace-free block without matching. -/
theorem pyReplace_append_braceFree (p r : Str) (q : Str) (hp : p = '{' :: q) :
    ∀ s₁ s₂ : Str, braceFree s₁ = true →
      pyReplace p r (s₁ ++ s₂) = s₁ ++ pyReplace p r s₂ := by
  intro s₁
  induction s₁ with
  | nil => intro s₂ _; rfl
  | cons c t ih =>
    intro s₂ hb
    have hc : (c == '{') = false := by
      simp only [braceFree, List.all_cons, Bool.and_eq_true] at hb
      cases hcc : c == '{' <;> simp_all
    have hbt : braceFree t = true := by
      simp only [braceFree, List.all_cons, Bool.and_eq_true] at hb
      exact hb.2
    have hpre : p.isPrefixOf (c :: (t ++ s₂)) = false := by
      subst hp
      simp only [List.isPrefixOf]
      have : ('{' == c) = false := by
        cases hcc : c == '{'
        · cases hcc2 : '{' == c
          · rfl
          · exact absurd (by simpa [eq_comm] using (beq_iff_eq.mp hcc2)) (by simp_all)
        · simp_all
      simp [this]
    rw [List.cons_append, pyReplace_cons_neg _ _ _ _ hpre, ih s₂ hbt, List.cons_append]

/-! ### Prompt assembly: claims C1 and C9 -/

theorem buildEnhanced_eq_specA (tmpl : Str) (pc ptc : Option Str) :
    buildEnhanced tmpl pc ptc = specEnhancedC1A tmpl pc ptc := by
  cases pc with
  | none =>
    cases ptc with
    | none => rfl
    | some u => cases u <;> simp [buildEnhanced, specEnhancedC1A, truthy]
  | some s =>
    cases ptc with
    | none => cases s <;> simp [buildEnhanced, specEnhancedC1A, truthy]
    | some u => cases s <;> cases u <;> simp [buildEnhanced, specEnhancedC1A, truthy]

/-- C1 counterexample: with `personaContext` provided but equal to the empty
string, the code appends nothing (Python truthiness), while the claim as
stated appends the labelled block. -/
theorem c1_counterexample :
    fillPrompt ("T").data ("m").data ("c").data (some []) none ≠
      specFillC1 ("T").data ("m").data ("c").data (some []) none := by
  decide

/-- C1 (amended): the filled prompt submitted as the user message equals the
result of starting from the template, appending the persona block when
`personaContext` is provided and non-empty, then the previous-turn block when
`previousTurnContext` is provided and non-empty, then literally substituting
every occurrence of the METRIC placeholder with `metric` and then every
occurrence of the CONVERSATION placeholder with `conversation`. -/
theorem c1_prompt_assembly (tmpl metric conv : Str) (pc ptc : Option Str) :
    fillPrompt tmpl metric conv pc ptc = specFillC1A tmpl metric conv pc ptc := by
  unfold fillPrompt fillTokens specFillC1A
  rw [buildEnhanced_eq_specA]

/-- C9: the METRIC substitution is performed first, the CONVERSATION
substitution second, on the result.  Hence a metric containing the
CONVERSATION placeholder has that occurrence replaced by the conversation
text (first conjunct, for every conversation), while a conversation
containing the METRIC placeholder leaves that token in the filled prompt
(second and third conjuncts). -/
theorem c9_substitution_order :
    (∀ conv : Str,
      fillPrompt mtok (("pre").data ++ ctok ++ ("post").data) conv none none =
        ("pre").data ++ conv ++ ("post").data)
    ∧ fillPrompt ctok ("m").data (['y'] ++ mtok ++ ['z']) none none =
        ['y'] ++ mtok ++ ['z']
    ∧ mtok <:+: fillPrompt ctok ("m").data (['y'] ++ mtok ++ ['z']) none none := by
  refine ⟨?_, by decide, by decide⟩
  intro conv
  have hb : buildEnhanced mtok none none = mtok := rfl
  unfold fillPrompt fillTokens
  rw [hb, pyReplace_self _ _ (by decide), List.append_assoc,
    pyReplace_append_braceFree ctok conv ctok.tail rfl ("pre").data _ (by decide),
    pyReplace_head _ _ _ (by decide),
    pyReplace_no_occ ctok conv ("post").data (by decide)]
  simp [List.append_assoc]

/-! ### Occurrences across concatenations -/

theorem prefix_append_cases {α : Type} {l t₁ t₂ : List α} (h : l <+: t₁ ++ t₂) :
    l <+: t₁ ∨ ∃ b, l = t₁ ++ b ∧ b <+: t₂ := by
  rcases List.prefix_or_prefix_of_prefix h (List.prefix_append t₁ t₂) with h1 | h1
  · exact Or.inl h1
  · right
    obtain ⟨b, rfl⟩ := h1
    exact ⟨b, rfl, (List.prefix_append_right_inj t₁).mp h⟩

theorem infix_append_cases {α : Type} {l t₁ t₂ : List α} (h : l <:+: t₁ ++ t₂) :
    l <:+: t₁ ∨ l <:+: t₂ ∨
      ∃ a b, l = a ++ b ∧ a ≠ [] ∧ b ≠ [] ∧ a <:+ t₁ ∧ b <+: t₂ := by
  induction t₁ with
  | nil => exact Or.inr (Or.inl (by simpa using h))
  | cons c t ih =>
    rcases List.infix_cons_iff.mp (by simpa using h) with hpre | hinf
    · rcases @prefix_append_cases α l (c :: t) t₂ (by simpa using hpre) with
        h1 | ⟨b, rfl, hb⟩
      · exact Or.inl h1.isInfix
      · by_cases hbnil : b = []
        · subst hbnil
          exact Or.inl (by simp)
        · exact Or.inr (Or.inr ⟨c :: t, b, rfl, by simp, hbnil, List.suffix_rfl, hb⟩)
    · rcases ih hinf with h1 | h2 | ⟨a, b, rfl, ha, hb, hsuf, hpre2⟩
      · exact Or.inl (List.infix_cons h1)
      · exact Or.inr (Or.inl h2)
      · exact Or.inr (Or.inr
          ⟨a, b, rfl, ha, hb, hsuf.trans (List.suffix_cons c t), hpre2⟩)

/-- A token that starts with an opening brace and contains no newline cannot
occur in `base ++ (label ++ ctx)` when it occurs in none of the three parts,
the label starts with a newline, and the label contains no opening brace:
any boundary-spanning occurrence would put a newline into the token or an
opening brace into the label. -/
theorem tok_not_infix_block (tok base label ctx : Str)
    (hbase : ¬ tok <:+: base) (hlab : ¬ tok <:+: label) (hctx : ¬ tok <:+: ctx)
    (hheadTok : tok.head? = some '{') (hbraceLab : '{' ∉ label)
    (hlabHead : label.head? = some '\n') (hnl : '\n' ∉ tok) :
    ¬ tok <:+: base ++ (label ++ ctx) := by
  intro h
  rcases infix_append_cases h with hb | hlc | ⟨a, b, htok, ha, hbne, hsuf, hpre⟩
  · exact hbase hb
  · rcases infix_append_cases hlc with hl | hc | ⟨a, b, htok, ha, hbne, hsuf, hpre⟩
    · exact hlab hl
    · exact hctx hc
    · match a, ha with
      | a0 :: as, _ =>
        have htop : tok.head? = some a0 := by rw [htok]; rfl
        have ha0 : a0 = '{' := by
          rw [hheadTok] at htop
          exact (Option.some.inj htop).symm
        have hmem : a0 ∈ label := hsuf.sublist.subset (by simp)
        exact hbraceLab (ha0 ▸ hmem)
  · match b, hbne with
    | b0 :: bs, _ =>
      have hb0tok : b0 ∈ tok := by
        rw [htok]; exact List.mem_append_right _ (by simp)
      have hfirst : (label ++ ctx).head? = some b0 := by
        rcases hpre with ⟨rest2, hr⟩
        rw [← hr]; rfl
      have hlc : (label ++ ctx).head? = some '\n' := by
        match label, hlabHead with
        | c :: ls, hh =>
          have : c = '\n' := Option.some.inj hh
          subst this; rfl
      rw [hfirst] at hlc
      have : b0 = '\n' := Option.some.inj hlc
      exact hnl (this ▸ hb0tok)

/-! ### Claim C8: token-free templates pass through -/

/-- C8 counterexample: the template contains neither placeholder token, but the
persona context does; the substitution pass rewrites the context inside the
appended block, so the filled prompt is not the template plus the appended
blocks. -/
theorem c8_counterexample :
    (¬ mtok <:+: ("T").data ∧ ¬ ctok <:+: ("T").data) ∧
    fillPrompt ("T").data ("m").data ("c").data (some mtok) none ≠
      buildEnhanced ("T").data (some mtok) none := by
  decide

/-- C8 (amended): for every template that contains neither placeholder token,
and optional context strings that themselves contain no placeholder token, the
filled prompt equals the template with only the optional labelled context
blocks appended — the template text is passed through unchanged. -/
theorem c8_template_passthrough (tmpl metric conv : Str) (pc ptc : Option Str)
    (h1 : ¬ mtok <:+: tmpl) (h2 : ¬ ctok <:+: tmpl)
    (h3 : ∀ s, pc = some s → ¬ mtok <:+: s ∧ ¬ ctok <:+: s)
    (h4 : ∀ s, ptc = some s → ¬ mtok <:+: s ∧ ¬ ctok <:+: s) :
    fillPrompt tmpl metric conv pc ptc = buildEnhanced tmpl pc ptc := by
  have key : ∀ tok : Str, tok.head? = some '{' → '\n' ∉ tok →
      ¬ tok <:+: personaLabel → ¬ tok <:+: previousLabel →
      '{' ∉ personaLabel → '{' ∉ previousLabel →
      (∀ s, pc = some s → ¬ tok <:+: s) → (∀ s, ptc = some s → ¬ tok <:+: s) →
      ¬ tok <:+: tmpl →
      ¬ tok <:+: buildEnhanced tmpl pc ptc := by
    intro tok hh hn hp1 hp2 hb1 hb2 hpc hptc htm
    unfold buildEnhanced
    have he1 : ¬ tok <:+:
        (if truthy pc then tmpl ++ personaLabel ++ pc.getD [] else tmpl) := by
      cases pc with
      | none => simpa [truthy] using htm
      | some s =>
        by_cases hs : s.isEmpty
        · simpa [truthy, hs] using htm
        · simp only [truthy, hs, Bool.not_false, if_true, Option.getD_some]
          rw [List.append_assoc]
          exact tok_not_infix_block tok tmpl personaLabel s htm hp1 (hpc s rfl)
            hh hb1 (by decide) hn
    cases ptc with
    | none => simpa [truthy] using he1
    | some u =>
      by_cases hu : u.isEmpty
      · simpa [truthy, hu] using he1
      · simp only [truthy, hu, Bool.not_false, if_true, Option.getD_some]
        rw [List.append_assoc]
        exact tok_not_infix_block tok _ previousLabel u he1 hp2 (hptc u rfl)
          hh hb2 (by decide) hn
  unfold fillPrompt fillTokens
  rw [pyReplace_no_occ mtok metric _
      (key mtok rfl (by decide) (by decide) (by decide) (by decide) (by decide)
        (fun s hs => (h3 s hs).1) (fun s hs => (h4 s hs).1) h1),
    pyReplace_no_occ ctok conv _
      (key ctok rfl (by decide) (by decide) (by decide) (by decide) (by decide)
        (fun s hs => (h3 s hs).2) (fun s hs => (h4 s hs).2) h2)]

/-- Concrete instance of the amended claim C8. -/
theorem c8_witness :
    fillPrompt ("Hello").data ("m").data ("c").data (some ("ctx").data) none =
      buildEnhanced ("Hello").data (some ("ctx").data) none :=
  c8_template_passthrough _ _ _ _ _ (by decide) (by decide)
    (fun s hs => by cases hs; exact ⟨by decide, by decide⟩)
    (fun s hs => Option.noConfusion hs)

/-! ### Pipeline claims C5, C2, C4, C6, C10 -/

/-- C5: with the credential absent from the process-wide configuration,
`evaluate_conversation` fails immediately with the configuration error, and
the list of outbound HTTP requests made is empty — for every input and
every behaviour of the transport and parser oracles. -/
theorem c5_missing_credential (tmpl metric conv : Str) (pc ptc : Option Str)
    (reply : NetReply) (loads : Str → Except String Jobj) :
    evaluate_conversation none tmpl metric conv pc ptc reply loads =
      (.error .configError, []) := rfl

/-- C2: whenever the parsed object has both required keys and its score value
coerces to an integer `s`, the returned score is `max 0 (min 10 s)` — an
out-of-range `s` is silently clamped, the call still succeeds. -/
theorem c2_score_clamped (kvs : Jobj) (v : JSON) (s : Int)
    (hs : jLookup kvs ("score") = some v)
    (he : (jLookup kvs ("explanation")).isSome = true)
    (hint : pyInt v = .ok s) :
    postParse kvs =
      .ok ⟨max 0 (min 10 s), (jLookup kvs ("explanation")).getD .jnull⟩ := by
  rcases Option.isSome_iff_exists.mp he with ⟨w, hw⟩
  unfold postParse
  rw [hs, hw]
  simp [hint]

/-- Concrete instance of C2 with an out-of-range score of 42. -/
theorem c2_witness :
    postParse [(("score"), JSON.jnum 42), (("explanation"), JSON.jstr ("ok"))] =
      .ok ⟨max 0 (min 10 42),
        (jLookup [(("score"), JSON.jnum 42), (("explanation"), JSON.jstr ("ok"))]
          ("explanation")).getD .jnull⟩ :=
  c2_score_clamped _ (JSON.jnum 42) 42 rfl rfl rfl

/-- C4: the validation fails with the missing-fields error exactly when the
parsed object lacks `score` or lacks `explanation`; in particular an object
with only a score fails that way. -/
theorem c4_missing_fields :
    (∀ kvs : Jobj,
      postParse kvs = .error (.parseFailed .missingFields) ↔
        jLookup kvs ("score") = none ∨ jLookup kvs ("explanation") = none)
    ∧ postParse [(("score"), JSON.jnum 3)] = .error (.parseFailed .missingFields) := by
  refine ⟨?_, rfl⟩
  intro kvs
  rcases hs : jLookup kvs ("score") with _ | v
  · unfold postParse; rw [hs]; simp
  · rcases he : jLookup kvs ("explanation") with _ | w
    · unfold postParse; rw [hs, he]; simp
    · unfold postParse; rw [hs, he]
      cases hp : pyInt v with
      | ok s => simp [hp]
      | error e =>
        cases e with
        | valueErr l => simp [hp]
        | typeErr => simp [hp]

/-- C6 counterexample: the code does not validate the explanation value; a
reply whose explanation is the empty string is returned successfully, so the
returned explanation is not a non-empty string. -/
theorem c6_counterexample :
    postParse [(("score"), JSON.jnum 5), (("explanation"), JSON.jstr (""))] =
      .ok ⟨5, JSON.jstr ("")⟩ ∧ ("" : String).data = [] := ⟨rfl, rfl⟩

/-- C6 (amended): every successfully returned result has an integer score in
`[0, 10]` and carries the parsed object's explanation value through verbatim
(the code neither checks that it is a string nor that it is non-empty). -/
theorem c6_result_validity (kvs : Jobj) (r : EvalResult)
    (h : postParse kvs = .ok r) :
    0 ≤ r.score ∧ r.score ≤ 10 ∧ jLookup kvs ("explanation") = some r.explanation := by
  unfold postParse at h
  rcases hs : jLookup kvs ("score") with _ | v
  · rw [hs] at h; simp at h
  · rcases he : jLookup kvs ("explanation") with _ | w
    · rw [hs, he] at h; simp at h
    · rw [hs, he] at h
      simp only [Option.isNone_some, Bool.or_self, Option.getD_some] at h
      cases hp : pyInt v with
      | ok s =>
        rw [hp] at h
        simp only [Bool.false_eq_true, if_false, Except.ok.injEq] at h
        subst h
        exact ⟨le_max_left 0 _, max_le (by norm_num) (min_le_left _ _), rfl⟩
      | error e =>
        cases e with
        | valueErr l => rw [hp] at h; simp at h
        | typeErr => rw [hp] at h; simp at h

/-- Concrete instance of the amended C6. -/
theorem c6_witness :
    (0 : Int) ≤ 7 ∧ (7 : Int) ≤ 10 ∧
      jLookup [(("score"), JSON.jnum 7), (("explanation"), JSON.jstr ("ok"))]
        ("explanation") = some (JSON.jstr ("ok")) :=
  c6_result_validity _ ⟨7, JSON.jstr ("ok")⟩ rfl

/-- C10: score coercion of a JSON number truncates toward zero before
clamping (so 9.9 yields 9 and -0.5 yields 0), and a non-numeric string
score fails with the caught parse-failure error rather than returning. -/
theorem c10_truncation :
    (∀ (kvs : Jobj) (q : Rat) (w : JSON),
      jLookup kvs ("score") = some (JSON.jnum q) →
      jLookup kvs ("explanation") = some w →
      postParse kvs = .ok ⟨max 0 (min 10 (Int.tdiv q.num (q.den : Int))), w⟩)
    ∧ postParse [(("score"), JSON.jnum (mkRat 99 10)), (("explanation"), JSON.jstr ("x"))] =
        .ok ⟨9, JSON.jstr ("x")⟩
    ∧ postParse [(("score"), JSON.jnum (mkRat (-1) 2)), (("explanation"), JSON.jstr ("x"))] =
        .ok ⟨0, JSON.jstr ("x")⟩
    ∧ postParse [(("score"), JSON.jstr ("abc")), (("explanation"), JSON.jstr ("x"))] =
        .error (.parseFailed (.intLiteral ("abc"))) := by
  refine ⟨?_, rfl, rfl, rfl⟩
  intro kvs q w hs he
  unfold postParse
  rw [hs, he]
  simp [pyInt]

/-- Concrete instance of the universally quantified part of C10. -/
theorem c10_witness :
    postParse [(("score"), JSON.jnum (mkRat 5 2)), (("explanation"), JSON.jstr ("y"))] =
      .ok ⟨max 0 (min 10 (Int.tdiv (mkRat 5 2).num (((mkRat 5 2).den) : Int))),
        JSON.jstr ("y")⟩ :=
  c10_truncation.1 _ (mkRat 5 2) (JSON.jstr ("y")) rfl rfl

/-! ### Claim C3: the brace-delimited extraction -/

theorem firstIdx_spec (c d : Char) :
    ∀ (s : Str) (i : Nat), firstIdx c s = some i →
      i < s.length ∧ s.getD i d = c ∧ ∀ k, k < i → s.getD k d ≠ c := by
  intro s
  induction s with
  | nil => intro i h; exact absurd h (by simp [firstIdx])
  | cons x t ih =>
    intro i h
    by_cases hx : x = c
    · rw [firstIdx, if_pos hx] at h
      cases h
      exact ⟨by simp, by simpa using hx, by omega⟩
    · rw [firstIdx, if_neg hx] at h
      cases hft : firstIdx c t with
      | none => rw [hft] at h; exact absurd h (by simp)
      | some i' =>
        rw [hft] at h
        have h' : i' + 1 = i := Option.some.inj h
        subst h'
        obtain ⟨h1, h2, h3⟩ := ih i' hft
        refine ⟨by simpa using h1, by simpa using h2, ?_⟩
        intro k hk
        match k with
        | 0 => simpa using hx
        | k' + 1 =>
          simp only [List.getD_cons_succ]
          exact h3 k' (by omega)

theorem firstIdx_none (c d : Char) :
    ∀ s : Str, firstIdx c s = none → ∀ k, k < s.length → s.getD k d ≠ c := by
  intro s
  induction s with
  | nil => intro _ k hk; simp at hk
  | cons x t ih =>
    intro h k hk
    by_cases hx : x = c
    · rw [firstIdx, if_pos hx] at h; exact absurd h (by simp)
    · rw [firstIdx, if_neg hx] at h
      cases hft : firstIdx c t with
      | none =>
        match k with
        | 0 => simpa using hx
        | k' + 1 =>
          simp only [List.getD_cons_succ]
          exact ih hft k' (by simpa using hk)
      | some i' => rw [hft] at h; exact absurd h (by simp)

theorem lastIdx_none (c d : Char) :
    ∀ s : Str, lastIdx c s = none → ∀ k, k < s.length → s.getD k d ≠ c := by
  intro s
  induction s with
  | nil => intro _ k hk; simp at hk
  | cons x t ih =>
    intro h k hk
    rw [lastIdx] at h
    cases hlt : lastIdx c t with
    | some j' => rw [hlt] at h; exact absurd h (by simp)
    | none =>
      rw [hlt] at h
      have hx : x ≠ c := by
        by_contra hxc
        rw [if_pos hxc] at h
        exact absurd h (by simp)
      match k with
      | 0 => simpa using hx
      | k' + 1 =>
        simp only [List.getD_cons_succ]
        exact ih hlt k' (by simpa using hk)

theorem lastIdx_spec (c d : Char) :
    ∀ (s : Str) (j : Nat), lastIdx c s = some j →
      j < s.length ∧ s.getD j d = c ∧ ∀ k, j < k → k < s.length → s.getD k d ≠ c := by
  intro s
  induction s with
  | nil => intro j h; exact absurd h (by simp [lastIdx])
  | cons x t ih =>
    intro j h
    rw [lastIdx] at h
    cases hlt : lastIdx c t with
    | some j' =>
      rw [hlt] at h
      cases h
      obtain ⟨h1, h2, h3⟩ := ih j' hlt
      refine ⟨by simpa using h1, by simpa using h2, ?_⟩
      intro k hk1 hk2
      match k with
      | k' + 1 =>
        simp only [List.getD_cons_succ]
        exact h3 k' (by omega) (by simpa using hk2)
    | none =>
      rw [hlt] at h
      by_cases hx : x = c
      · rw [if_pos hx] at h
        cases h
        refine ⟨by simp, by simpa using hx, ?_⟩
        intro k hk1 hk2
        match k with
        | k' + 1 =>
          simp only [List.getD_cons_succ]
          exact lastIdx_none c d t hlt k' (by simpa using hk2)
      · rw [if_neg hx] at h
        exact absurd h (by simp)

theorem reSearch_none_of_no_close :
    ∀ t : Str, lastIdx '}' t = none → reSearchBrace t = none := by
  intro t
  induction t with
  | nil => intro _; rfl
  | cons y u ih =>
    intro h
    rw [lastIdx] at h
    cases hlu : lastIdx '}' u with
    | some j => rw [hlu] at h; exact absurd h (by simp)
    | none =>
      rw [hlu] at h
      rw [reSearchBrace]
      by_cases hy : y = '{'
      · rw [if_pos hy, hlu, ih hlu]; rfl
      · rw [if_neg hy, ih hlu]; rfl

theorem reSearch_first_last :
    ∀ text : Str,
      reSearchBrace text =
        match firstIdx '{' text, lastIdx '}' text with
        | some i, some j => if i < j then some (i, j) else none
        | _, _ => none := by
  intro text
  induction text with
  | nil => rfl
  | cons x t ih =>
    by_cases hx : x = '{'
    · rw [reSearchBrace, if_pos hx, firstIdx, if_pos hx, lastIdx]
      cases hlt : lastIdx '}' t with
      | some j => simp
      | none =>
        rw [reSearch_none_of_no_close t hlt]
        have hxc : x ≠ '}' := by rw [hx]; decide
        rw [if_neg hxc]; rfl
    · rw [reSearchBrace, if_neg hx, firstIdx, if_neg hx, lastIdx, ih]
      cases hft : firstIdx '{' t with
      | none =>
        cases hlt : lastIdx '}' t with
        | some j => simp
        | none => by_cases hxc : x = '}' <;> simp [hxc]
      | some i =>
        cases hlt : lastIdx '}' t with
        | some j =>
          by_cases hij : i < j
          · simp [hij, Nat.succ_lt_succ_iff]
          · simp [hij, Nat.succ_lt_succ_iff]
        | none =>
          by_cases hxc : x = '}' <;> simp [hxc]

theorem extract_eq_specExtract (text : Str) :
    extractJson text = specExtract text := by
  unfold extractJson specExtract
  rw [reSearch_first_last]
  cases hf : firstIdx '{' text with
  | none => rfl
  | some i =>
    cases hl : lastIdx '}' text with
    | none => rfl
    | some j =>
      by_cases hij : i < j <;> simp [hij]

theorem specExtract_none_iff (t : Str) :
    specExtract t = none ↔
      ∀ i j : Nat, i ≤ j → j < t.length →
        ¬(t.getD i ' ' = '{' ∧ t.getD j ' ' = '}') := by
  constructor
  · intro h i j hij hjlen hc
    obtain ⟨hi, hj⟩ := hc
    unfold specExtract at h
    cases hf : firstIdx '{' t with
    | none => exact firstIdx_none '{' ' ' t hf i (by omega) hi
    | some i₀ =>
      cases hl : lastIdx '}' t with
      | none => exact lastIdx_none '}' ' ' t hl j hjlen hj
      | some j₀ =>
        rw [hf, hl] at h
        have h' : (if i₀ < j₀ then some ((t.drop i₀).take (j₀ - i₀ + 1)) else none) =
            (none : Option Str) := h
        have hnij : ¬ i₀ < j₀ := by
          by_contra hij₀
          rw [if_pos hij₀] at h'
          exact absurd h' (by simp)
        obtain ⟨hf1, hf2, hf3⟩ := firstIdx_spec '{' ' ' t i₀ hf
        obtain ⟨hl1, hl2, hl3⟩ := lastIdx_spec '}' ' ' t j₀ hl
        have hii : i₀ ≤ i := by
          by_contra hlt'
          exact hf3 i (by omega) hi
        have hjj : j ≤ j₀ := by
          by_contra hgt'
          exact hl3 j (by omega) hjlen hj
        have : i₀ = j₀ := by omega
        rw [this, hl2] at hf2
        exact absurd hf2 (by decide)
  · intro hforall
    unfold specExtract
    cases hf : firstIdx '{' t with
    | none => rfl
    | some i₀ =>
      cases hl : lastIdx '}' t with
      | none => rfl
      | some j₀ =>
        obtain ⟨hf1, hf2, _⟩ := firstIdx_spec '{' ' ' t i₀ hf
        obtain ⟨hl1, hl2, _⟩ := lastIdx_spec '}' ' ' t j₀ hl
        have hno : ¬ i₀ < j₀ := by
          intro hij₀
          exact hforall i₀ j₀ (by omega) hl1 ⟨hf2, hl2⟩
        show (if i₀ < j₀ then some ((t.drop i₀).take (j₀ - i₀ + 1)) else none) =
          (none : Option Str)
        rw [if_neg hno]

theorem postParse_not_noJson (kvs : Jobj) :
    postParse kvs ≠ .error (.parseFailed .noJson) := by
  unfold postParse
  by_cases hc : ((jLookup kvs ("score")).isNone ||
      (jLookup kvs ("explanation")).isNone) = true
  · rw [if_pos hc]; simp
  · rw [if_neg hc]
    cases hp : pyInt ((jLookup kvs ("score")).getD .jnull) with
    | ok s => simp
    | error e => cases e <;> simp

theorem processContent_noJson_iff (text : Str) (loads : Str → Except String Jobj) :
    processContent text loads = .error (.parseFailed .noJson) ↔
      extractJson (pyStrip text) = none := by
  cases he : extractJson (pyStrip text) with
  | none =>
    have hpc : processContent text loads = .error (.parseFailed .noJson) := by
      unfold processContent; rw [he]
    simp [hpc]
  | some cand =>
    have hpc : processContent text loads =
        match loads cand with
        | .error m => .error (.parseFailed (.jsonDecode m))
        | .ok kvs => postParse kvs := by
      unfold processContent; rw [he]
    rw [hpc]
    cases hl : loads cand with
    | error m => simp
    | ok kvs => exact iff_of_false (postParse_not_noJson kvs) (by simp)

/-- C3: the candidate JSON text the engine parses is exactly the substring of
the trimmed reply extending from the first opening brace to the last closing
brace (the greedy brace-delimited scan), and the pipeline fails with the
no-JSON-object error exactly when no opening brace is followed, at or after
it, by a closing brace. -/
theorem c3_extraction_scan (text : Str) (loads : Str → Except String Jobj) :
    extractJson (pyStrip text) = specExtract (pyStrip text)
    ∧ (processContent text loads = .error (.parseFailed .noJson) ↔
        ∀ i j : Nat, i ≤ j → j < (pyStrip text).length →
          ¬((pyStrip text).getD i ' ' = '{' ∧ (pyStrip text).getD j ' ' = '}')) := by
  refine ⟨extract_eq_specExtract _, ?_⟩
  rw [processContent_noJson_iff, extract_eq_specExtract]
  exact specExtract_none_iff _

/-! ### Claim C7: placeholder removal on clean templates -/

theorem cleanF_fuel_irrel :
    ∀ f₁ f₂ s, s.length ≤ f₁ → s.length ≤ f₂ → cleanF f₁ s = cleanF f₂ s := by
  intro f₁
  induction f₁ using Nat.strong_induction_on with
  | _ f₁ ih =>
    intro f₂ s h₁ h₂
    match s with
    | [] => cases f₁ <;> cases f₂ <;> rfl
    | c :: t =>
      match f₁, f₂ with
      | g₁ + 1, g₂ + 1 =>
        simp only [cleanF]
        simp only [List.length_cons] at h₁ h₂
        by_cases hm : mtok.isPrefixOf (c :: t) = true
        · rw [if_pos hm, if_pos hm]
          have hg₁ : (t.drop (mtok.length - 1)).length ≤ g₁ := by
            simp only [List.length_drop]; omega
          have hg₂ : (t.drop (mtok.length - 1)).length ≤ g₂ := by
            simp only [List.length_drop]; omega
          exact ih g₁ (Nat.lt_succ_self _) g₂ _ hg₁ hg₂
        · rw [if_neg hm, if_neg hm]
          by_cases hc : ctok.isPrefixOf (c :: t) = true
          · rw [if_pos hc, if_pos hc]
            have hg₁ : (t.drop (ctok.length - 1)).length ≤ g₁ := by
              simp only [List.length_drop]; omega
            have hg₂ : (t.drop (ctok.length - 1)).length ≤ g₂ := by
              simp only [List.length_drop]; omega
            exact ih g₁ (Nat.lt_succ_self _) g₂ _ hg₁ hg₂
          · rw [if_neg hc, if_neg hc,
              ih g₁ (Nat.lt_succ_self _) g₂ t (by omega) (by omega)]

theorem cleanTmpl_cons_m (c : Char) (t : Str)
    (h : mtok.isPrefixOf (c :: t) = true) :
    cleanTmpl (c :: t) = cleanTmpl (t.drop (mtok.length - 1)) := by
  unfold cleanTmpl
  simp only [List.length_cons, cleanF]
  rw [if_pos h]
  exact cleanF_fuel_irrel _ _ _ (by simp [List.length_drop]) le_rfl

theorem cleanTmpl_cons_c (c : Char) (t : Str)
    (hm : mtok.isPrefixOf (c :: t) = false)
    (h : ctok.isPrefixOf (c :: t) = true) :
    cleanTmpl (c :: t) = cleanTmpl (t.drop (ctok.length - 1)) := by
  unfold cleanTmpl
  simp only [List.length_cons, cleanF]
  rw [if_neg (by simp [hm]), if_pos h]
  exact cleanF_fuel_irrel _ _ _ (by simp [List.length_drop]) le_rfl

theorem cleanTmpl_cons_lit (c : Char) (t : Str)
    (hm : mtok.isPrefixOf (c :: t) = false)
    (hc : ctok.isPrefixOf (c :: t) = false) :
    cleanTmpl (c :: t) = (!(c == '{' || c == '}') && cleanTmpl t) := by
  unfold cleanTmpl
  simp only [List.length_cons, cleanF]
  rw [if_neg (by simp [hm]), if_neg (by simp [hc])]

theorem drop_of_append_cons {p rest t : Str} {c : Char}
    (h : p ++ rest = c :: t) (hp : p ≠ []) : t.drop (p.length - 1) = rest := by
  match p, hp with
  | p0 :: p', _ =>
    rw [List.cons_append] at h
    injection h with h1 h2
    subst h2
    simp [List.drop_left]

theorem braceFree_append (a b : Str) :
    braceFree (a ++ b) = (braceFree a && braceFree b) := by
  simp [braceFree]

theorem not_infix_of_braceFree (tok s : Str) (hs : braceFree s = true)
    (hc : '{' ∈ tok) : ¬ tok <:+: s := by
  intro h
  have hmem : '{' ∈ s := h.sublist.subset hc
  simp only [braceFree, List.all_eq_true] at hs
  have h2 := hs '{' hmem
  simp at h2

theorem infix_append_left {α : Type} (x : List α) {l y : List α}
    (h : l <:+: y) : l <:+: x ++ y := by
  rcases h with ⟨u, v, huv⟩
  exact ⟨x ++ u, v, by rw [← huv]; simp⟩

theorem isPrefixOf_cons_false_of_head {p q : Str} (hp : p = '{' :: q)
    {c : Char} (hcb : (c == '{') = false) (t : Str) :
    p.isPrefixOf (c :: t) = false := by
  subst hp
  have hne : c ≠ '{' := beq_eq_false_iff_ne.mp hcb
  have hbf : ('{' == c) = false := beq_eq_false_iff_ne.mpr (Ne.symm hne)
  simp [List.isPrefixOf, hbf]

theorem pyReplace_skip_no_match (p r : Str) :
    ∀ s₁ s₂ : Str, (∀ k, k < s₁.length → p.isPrefixOf (s₁.drop k ++ s₂) = false) →
      pyReplace p r (s₁ ++ s₂) = s₁ ++ pyReplace p r s₂ := by
  intro s₁
  induction s₁ with
  | nil => intro s₂ _; rfl
  | cons c t ih =>
    intro s₂ h
    have h0 : p.isPrefixOf (c :: (t ++ s₂)) = false := by
      have h' := h 0 (by simp)
      simpa using h'
    have hrec : ∀ k, k < t.length → p.isPrefixOf (t.drop k ++ s₂) = false := by
      intro k hk
      have h' := h (k + 1) (by simp only [List.length_cons]; omega)
      simpa using h'
    rw [List.cons_append, pyReplace_cons_neg _ _ _ _ h0, ih s₂ hrec, List.cons_append]

/-- The METRIC replacement pass walks through a CONVERSATION token without
matching: no position inside it starts an occurrence of the METRIC token. -/
theorem pyReplace_mtok_walks_ctok (metric s : Str) :
    pyReplace mtok metric (ctok ++ s) = ctok ++ pyReplace mtok metric s := by
  apply pyReplace_skip_no_match
  intro k hk
  have hk' : k < 16 := by simpa [ctok] using hk
  interval_cases k <;> rfl

/-- A CONVERSATION-token occurrence in `mtok ++ s` lies in `s`: the tokens do
not overlap, and no nonempty prefix of one is a suffix of the other. -/
theorem ctok_infix_of_mtok_append {s : Str} (h : ctok <:+: mtok ++ s) :
    ctok <:+: s := by
  rcases infix_append_cases h with h1 | h1 | ⟨a, b, habk, ha, hb, hsuf, hpre⟩
  · exact absurd h1 (by decide)
  · exact h1
  · exfalso
    have hapre : a <+: ctok := ⟨b, habk.symm⟩
    have hatake : a = ctok.take a.length := List.prefix_iff_eq_take.mp hapre
    have halen : a.length ≤ ctok.length := hapre.length_le
    have hforall : ∀ k : Nat, k < ctok.length + 1 → k ≠ 0 →
        ¬ (ctok.take k <:+ mtok) := by decide
    exact hforall a.length (by omega)
      (fun h0 => ha (List.length_eq_zero.mp h0)) (hatake ▸ hsuf)

/-- Symmetrically, a METRIC-token occurrence in `ctok ++ s` lies in `s`. -/
theorem mtok_infix_of_ctok_append {s : Str} (h : mtok <:+: ctok ++ s) :
    mtok <:+: s := by
  rcases infix_append_cases h with h1 | h1 | ⟨a, b, habk, ha, hb, hsuf, hpre⟩
  · exact absurd h1 (by decide)
  · exact h1
  · exfalso
    have hapre : a <+: mtok := ⟨b, habk.symm⟩
    have hatake : a = mtok.take a.length := List.prefix_iff_eq_take.mp hapre
    have halen : a.length ≤ mtok.length := hapre.length_le
    have hforall : ∀ k : Nat, k < mtok.length + 1 → k ≠ 0 →
        ¬ (mtok.take k <:+ ctok) := by decide
    exact hforall a.length (by omega)
      (fun h0 => ha (List.length_eq_zero.mp h0)) (hatake ▸ hsuf)

/-- Main induction for C7: on a clean template, with brace-free replacement
strings, the two replacement passes produce a brace-free result that contains
the replacement text of every token that occurred. -/
theorem fill_clean_main (metric conv : Str) (hbm : braceFree metric = true)
    (hbc : braceFree conv = true) :
    ∀ n : Nat, ∀ s : Str, s.length ≤ n → cleanTmpl s = true →
      braceFree (fillTokens s metric conv) = true
      ∧ (mtok <:+: s → metric <:+: fillTokens s metric conv)
      ∧ (ctok <:+: s → conv <:+: fillTokens s metric conv) := by
  intro n
  induction n using Nat.strong_induction_on with
  | _ n ih =>
    intro s hlen hclean
    match s with
    | [] =>
      refine ⟨rfl, ?_, ?_⟩ <;>
        · intro h
          rw [List.infix_nil] at h
          simp [mtok, ctok] at h
    | c :: t =>
      simp only [List.length_cons] at hlen
      by_cases hm : mtok.isPrefixOf (c :: t) = true
      · obtain ⟨rest, hrest⟩ := List.isPrefixOf_iff_prefix.mp hm
        have hdrop : t.drop (mtok.length - 1) = rest :=
          drop_of_append_cons hrest (by decide)
        have hcleanr : cleanTmpl rest = true := by
          rw [cleanTmpl_cons_m c t hm, hdrop] at hclean; exact hclean
        have hlenr : rest.length < n := by
          have hl2 : (mtok ++ rest).length = (c :: t).length := by rw [hrest]
          simp only [List.length_append, List.length_cons] at hl2
          have : mtok.length = 10 := by decide
          omega
        obtain ⟨ihb, ihm, ihc⟩ := ih rest.length hlenr rest le_rfl hcleanr
        have hfill : fillTokens (c :: t) metric conv =
            metric ++ fillTokens rest metric conv := by
          unfold fillTokens
          rw [← hrest, pyReplace_head mtok metric rest (by decide),
            pyReplace_append_braceFree ctok conv ctok.tail rfl metric _ hbm]
        refine ⟨?_, ?_, ?_⟩
        · rw [hfill, braceFree_append, hbm, ihb]; rfl
        · intro _
          rw [hfill]
          exact (List.prefix_append metric _).isInfix
        · intro hcinf
          rw [hfill]
          rw [← hrest] at hcinf
          exact infix_append_left metric (ihc (ctok_infix_of_mtok_append hcinf))
      · by_cases hc : ctok.isPrefixOf (c :: t) = true
        · obtain ⟨rest, hrest⟩ := List.isPrefixOf_iff_prefix.mp hc
          have hdrop : t.drop (ctok.length - 1) = rest :=
            drop_of_append_cons hrest (by decide)
          have hm' : mtok.isPrefixOf (c :: t) = false := Bool.eq_false_iff.mpr hm
          have hcleanr : cleanTmpl rest = true := by
            rw [cleanTmpl_cons_c c t hm' hc, hdrop] at hclean; exact hclean
          have hlenr : rest.length < n := by
            have hl2 : (ctok ++ rest).length = (c :: t).length := by rw [hrest]
            simp only [List.length_append, List.length_cons] at hl2
            have : ctok.length = 16 := by decide
            omega
          obtain ⟨ihb, ihm, ihc⟩ := ih rest.length hlenr rest le_rfl hcleanr
          have hfill : fillTokens (c :: t) metric conv =
              conv ++ fillTokens rest metric conv := by
            unfold fillTokens
            rw [← hrest, pyReplace_mtok_walks_ctok metric rest,
              pyReplace_head ctok conv _ (by decide)]
          refine ⟨?_, ?_, ?_⟩
          · rw [hfill, braceFree_append, hbc, ihb]; rfl
          · intro hminf
            rw [hfill]
            rw [← hrest] at hminf
            exact infix_append_left conv (ihm (mtok_infix_of_ctok_append hminf))
          · intro _
            rw [hfill]
            exact (List.prefix_append conv _).isInfix
        · have hm' : mtok.isPrefixOf (c :: t) = false := Bool.eq_false_iff.mpr hm
          have hc' : ctok.isPrefixOf (c :: t) = false := Bool.eq_false_iff.mpr hc
          rw [cleanTmpl_cons_lit c t hm' hc'] at hclean
          obtain ⟨hcb, hcleant⟩ := Bool.and_eq_true_iff.mp hclean
          have hcbrace : (c == '{') = false := by
            cases hx : c == '{'
            · rfl
            · rw [hx] at hcb; simp at hcb
          obtain ⟨ihb, ihm, ihc⟩ := ih t.length (by omega) t le_rfl hcleant
          have hfill : fillTokens (c :: t) metric conv =
              c :: fillTokens t metric conv := by
            unfold fillTokens
            rw [pyReplace_cons_neg mtok metric c t hm',
              pyReplace_cons_neg ctok conv c _
                (isPrefixOf_cons_false_of_head rfl hcbrace _)]
          refine ⟨?_, ?_, ?_⟩
          · rw [hfill]
            simpa [braceFree] using And.intro (by simpa using hcb) ihb
          · intro hminf
            rw [hfill]
            rcases List.infix_cons_iff.mp hminf with hpre | htail
            · exact absurd ( List.isPrefixOf_iff_prefix.mpr hpre) (by simp [hm'])
            · exact List.infix_cons (ihm htail)
          · intro hcinf
            rw [hfill]
            rcases List.infix_cons_iff.mp hcinf with hpre | htail
            · exact absurd ( List.isPrefixOf_iff_prefix.mpr hpre) (by simp [hc'])
            · exact List.infix_cons (ihc htail)

/-- C7 counterexample: the template contains both placeholder tokens, yet
with a metric that itself contains placeholder tokens the filled prompt still
contains the METRIC token (and the metric text is not preserved verbatim
either, since its CONVERSATION part is rewritten by the second pass). -/
theorem c7_counterexample :
    (mtok <:+: (("A ").data ++ mtok ++ (" B ").data ++ ctok)
      ∧ ctok <:+: (("A ").data ++ mtok ++ (" B ").data ++ ctok))
    ∧ mtok <:+: fillPrompt (("A ").data ++ mtok ++ (" B ").data ++ ctok)
        (ctok ++ ('x' :: mtok)) (("z").data) none none := by
  decide

/-- C7 (amended): whenever the enhanced prompt (template plus appended
context blocks) decomposes into placeholder tokens and non-brace literal
characters and contains both placeholder tokens, and the metric and
conversation strings contain no brace characters, the filled prompt contains
neither literal placeholder token and contains the supplied metric and
conversation text verbatim as substrings. -/
theorem c7_placeholder_removal (tmpl metric conv : Str) (pc ptc : Option Str)
    (hclean : cleanTmpl (buildEnhanced tmpl pc ptc) = true)
    (hm : mtok <:+: buildEnhanced tmpl pc ptc)
    (hc : ctok <:+: buildEnhanced tmpl pc ptc)
    (hbm : braceFree metric = true) (hbc : braceFree conv = true) :
    ¬ mtok <:+: fillPrompt tmpl metric conv pc ptc
    ∧ ¬ ctok <:+: fillPrompt tmpl metric conv pc ptc
    ∧ metric <:+: fillPrompt tmpl metric conv pc ptc
    ∧ conv <:+: fillPrompt tmpl metric conv pc ptc := by
  obtain ⟨hb, hmm, hcc⟩ := fill_clean_main metric conv hbm hbc
    (buildEnhanced tmpl pc ptc).length (buildEnhanced tmpl pc ptc) le_rfl hclean
  exact ⟨not_infix_of_braceFree mtok _ hb (by decide),
    not_infix_of_braceFree ctok _ hb (by decide), hmm hm, hcc hc⟩

/-- Concrete instance of the amended claim C7. -/
theorem c7_witness :
    ¬ mtok <:+: fillPrompt (mtok ++ (" and ").data ++ ctok)
        (("Empathy").data) (("Hi").data) none none
    ∧ ¬ ctok <:+: fillPrompt (mtok ++ (" and ").data ++ ctok)
        (("Empathy").data) (("Hi").data) none none
    ∧ ("Empathy").data <:+: fillPrompt (mtok ++ (" and ").data ++ ctok)
        (("Empathy").data) (("Hi").data) none none
    ∧ ("Hi").data <:+: fillPrompt (mtok ++ (" and ").data ++ ctok)
        (("Empathy").data) (("Hi").data) none none :=
  c7_placeholder_removal _ _ _ none none (by decide) (by decide) (by decide)
    (by decide) (by decide)

end CineMetric
